import Mathlib

/-!
Verification of the Digital Velocity Index (DVI) pipeline (`main.py`).

The pipeline normalizes three tabular silos (enrolment, demographic updates,
biometric updates), aggregates each by the composite key
`(date, state, district, pincode)` via `groupby(...).sum()`, left-joins the
aggregates, zero-fills missing values, computes the DVI metric per row, and
ranks low-DVI districts ("identity deserts").

Embedding choices:
* A table is a list of `(Key, Measures)` rows; every silo carries exactly two
  numeric measure columns, modelled as a pair of rationals
  (enrolment: `age_0_5, age_5_17`; demographic: `demo_age_5_17, demo_age_17_`;
  biometric: `bio_age_5_17, bio_age_17_`).
* The `date` column after `pd.to_datetime(..., errors='coerce')` is an
  `Option ℕ`; `none` is the NaT sentinel produced for unparseable dates.
* `groupby` follows pandas defaults: rows whose group key contains a null
  (NaT date) are dropped, and the output is sorted by the group key.
* String order is the code-point lexicographic order on the character list,
  matching the order pandas uses for string group keys.
* `sort_values` is realised by `List.insertionSort`, a correct ascending
  sort by value. Pandas' default sort kind (quicksort) is not stable in
  general, so no universal theorem below relies on the model's order among
  equal values — only on sortedness by value; concrete evaluations involve
  series of at most two elements, which numpy's backend sorts by insertion
  sort, so they coincide with the program's actual output.
-/

/-- Composite key `(date, state, district, pincode)` used for grouping and
merging. `date = none` models pandas' NaT sentinel for unparseable dates. -/
structure Key where
  date : Option ℕ
  state : String
  district : String
  pincode : ℕ
deriving DecidableEq

/-- Rank injection of the date column into ℕ, placing the NaT sentinel first;
used only to give keys a sort order. -/
def dateRank : Option ℕ → ℕ
  | none => 0
  | some n => n + 1

/-- Lexicographic encoding of a key, in pandas' group-key sort order
(date, then state, then district, then pincode). -/
def keyEnc (k : Key) : Lex (ℕ × Lex (List Char × Lex (List Char × ℕ))) :=
  toLex (dateRank k.date, toLex (k.state.data, toLex (k.district.data, k.pincode)))

/-- Sort order on composite keys (the order `groupby` emits groups in). -/
def keyLE (a b : Key) : Prop := keyEnc a ≤ keyEnc b

instance : DecidableRel keyLE := fun a b => inferInstanceAs (Decidable (keyEnc a ≤ keyEnc b))

instance : IsTotal Key keyLE := ⟨fun a b => le_total (keyEnc a) (keyEnc b)⟩

instance : IsTrans Key keyLE := ⟨fun _ _ _ h1 h2 => le_trans h1 h2⟩

/-- The two numeric measure columns a silo carries, summed componentwise. -/
abbrev Measures := ℚ × ℚ

/-- A silo table: one row per raw (or aggregated) record. -/
abbrev Table := List (Key × Measures)

/-- Python's `str.strip()`: drop leading and trailing whitespace. -/
def strip (s : String) : String :=
  ⟨((s.data.dropWhile Char.isWhitespace).reverse.dropWhile Char.isWhitespace).reverse⟩

/-- District cleaning from `main.py` (`clean_district`): strip whitespace,
then map the alias spellings of Bengaluru to the canonical name; any other
value passes through (pandas `Series.replace` on whole-cell matches). -/
def clean_district (s : String) : String :=
  let t := strip s
  if t = "Bangalore Urban" then "Bengaluru"
  else if t = "Bengaluru Urban" then "Bengaluru"
  else t

/-- Normalization applied to each silo before aggregation: the district
column is cleaned (the date was already coerced by `pd.to_datetime`). -/
def normalizeTable (t : Table) : Table :=
  t.map (fun r => (⟨r.1.date, r.1.state, clean_district r.1.district, r.1.pincode⟩, r.2))

/-- Rows whose group key is free of nulls: pandas `groupby` keeps exactly
these (default `dropna=True`). -/
def validRows (t : Table) : Table := t.filter (fun r => r.1.date.isSome)

/-- The distinct group keys of a table (NaT-dated rows excluded). -/
def tableKeys (t : Table) : List Key := ((validRows t).map Prod.fst).dedup

/-- Componentwise sum of the measure columns over all rows carrying key `k`
(the `sum()` of one `groupby` group). -/
def groupSum (t : Table) (k : Key) : Measures :=
  ((t.filter (fun r => r.1 == k)).map Prod.snd).sum

/-- The silo aggregation `df.groupby(['date','state','district','pincode']).sum()`:
one row per distinct non-null key, in key order, measures summed. -/
def aggregate (t : Table) : Table :=
  (List.insertionSort keyLE (tableKeys t)).map (fun k => (k, groupSum t k))

/-- A row of the master table after the two left-joins and before `fillna`:
every measure is optional, `none` standing for a missing value (NaN). -/
structure MergedRow where
  key : Key
  age_0_5 : Option ℚ
  age_5_17 : Option ℚ
  demo_age_5_17 : Option ℚ
  demo_age_17_ : Option ℚ
  bio_age_5_17 : Option ℚ
  bio_age_17_ : Option ℚ
deriving DecidableEq

/-- First left-join: `enrol_agg.merge(demo_agg, on=key, how='left')`.
Every enrolment row survives; a key with no demographic match gets `none`
in the demographic columns; a key with several matches fans out. -/
def mergeDemo (e d : Table) : List MergedRow :=
  e.flatMap (fun r =>
    let ms := d.filter (fun s => s.1 == r.1)
    if ms.isEmpty then [⟨r.1, some r.2.1, some r.2.2, none, none, none, none⟩]
    else ms.map (fun s => ⟨r.1, some r.2.1, some r.2.2, some s.2.1, some s.2.2, none, none⟩))

/-- Second left-join: `df.merge(bio_agg, on=key, how='left')`. -/
def mergeBio (l : List MergedRow) (b : Table) : List MergedRow :=
  l.flatMap (fun m =>
    let ms := b.filter (fun s => s.1 == m.key)
    if ms.isEmpty then [m]
    else ms.map (fun s => { m with bio_age_5_17 := some s.2.1, bio_age_17_ := some s.2.2 }))

/-- The merge step of `main.py`: enrolment left-join demographic, then
left-join biometric, all on the composite key. -/
def mergeAll (e d b : Table) : List MergedRow := mergeBio (mergeDemo e d) b

/-- A master-table row after `df.fillna(0)`: no missing values remain. -/
structure FilledRow where
  key : Key
  age_0_5 : ℚ
  age_5_17 : ℚ
  demo_age_5_17 : ℚ
  demo_age_17_ : ℚ
  bio_age_5_17 : ℚ
  bio_age_17_ : ℚ
deriving DecidableEq

/-- The `df.fillna(0, inplace=True)` step: every missing value, in every
column of the frame, becomes the number 0; present values are kept. -/
def fillna (m : MergedRow) : FilledRow :=
  ⟨m.key, m.age_0_5.getD 0, m.age_5_17.getD 0, m.demo_age_5_17.getD 0,
    m.demo_age_17_.getD 0, m.bio_age_5_17.getD 0, m.bio_age_17_.getD 0⟩

/-- The DVI formula of `main.py`:
`DVI = total_updates / (enrolment_pressure + total_updates + 1)`. -/
def dviFormula (pressure updates : ℚ) : ℚ := updates / (pressure + updates + 1)

/-- A master-table row extended with the three Index-Engine columns. -/
structure IndexedRow where
  key : Key
  age_0_5 : ℚ
  age_5_17 : ℚ
  demo_age_5_17 : ℚ
  demo_age_17_ : ℚ
  bio_age_5_17 : ℚ
  bio_age_17_ : ℚ
  enrolment_pressure : ℚ
  total_updates : ℚ
  DVI : ℚ
deriving DecidableEq

/-- The Index Engine (step 5 of `main.py`): per row,
`enrolment_pressure = age_0_5 + age_5_17`,
`total_updates = demo_age_5_17 + demo_age_17_ + bio_age_5_17 + bio_age_17_`,
`DVI = total_updates / (enrolment_pressure + total_updates + 1)`. -/
def addIndex (r : FilledRow) : IndexedRow :=
  { key := r.key, age_0_5 := r.age_0_5, age_5_17 := r.age_5_17,
    demo_age_5_17 := r.demo_age_5_17, demo_age_17_ := r.demo_age_17_,
    bio_age_5_17 := r.bio_age_5_17, bio_age_17_ := r.bio_age_17_,
    enrolment_pressure := r.age_0_5 + r.age_5_17,
    total_updates := r.demo_age_5_17 + r.demo_age_17_ + r.bio_age_5_17 + r.bio_age_17_,
    DVI := dviFormula (r.age_0_5 + r.age_5_17)
      (r.demo_age_5_17 + r.demo_age_17_ + r.bio_age_5_17 + r.bio_age_17_) }

/-- Code-point order on strings (the order pandas sorts string group keys in). -/
def strLE (a b : String) : Prop := a.data ≤ b.data

instance : DecidableRel strLE := fun a b => inferInstanceAs (Decidable (a.data ≤ b.data))

instance : IsTotal String strLE := ⟨fun a b => le_total a.data b.data⟩

instance : IsTrans String strLE := ⟨fun _ _ _ h1 h2 => le_trans h1 h2⟩

/-- Comparison of `(district, mean DVI)` entries by their value, the relation
`Series.sort_values` sorts by. -/
def valueLE (p q : String × ℚ) : Prop := p.2 ≤ q.2

instance : DecidableRel valueLE := fun p q => inferInstanceAs (Decidable (p.2 ≤ q.2))

instance : IsTotal (String × ℚ) valueLE := ⟨fun a b => le_total a.2 b.2⟩

instance : IsTrans (String × ℚ) valueLE := ⟨fun _ _ _ h1 h2 => le_trans h1 h2⟩

/-- The rows passing the identity-desert filter `df['DVI'] < 0.1`. -/
def qualifying (rows : List IndexedRow) : List IndexedRow :=
  rows.filter (fun r => decide (r.DVI < 1/10))

/-- Mean DVI of the rows of a given district (`groupby('district')['DVI'].mean()`). -/
def districtMean (rows : List IndexedRow) (d : String) : ℚ :=
  let g := rows.filter (fun r => r.key.district == d)
  (g.map (fun r => r.DVI)).sum / (g.length : ℚ)

/-- Step 6 of `main.py`: filter to `DVI < 0.1`, group by district (group keys
come out sorted), take the mean DVI per district, sort ascending by value,
keep the lowest 10. The value sort is modelled by insertion sort; pandas'
default `sort_values` kind is unstable in general, so only the sorted-by-
value property of this model (not its order among equal values) is
program-guaranteed for arbitrary inputs. -/
def identity_deserts (rows : List IndexedRow) : List (String × ℚ) :=
  let q := qualifying rows
  let ds := List.insertionSort strLE ((q.map (fun r => r.key.district)).dedup)
  (List.insertionSort valueLE (ds.map (fun d => (d, districtMean q d)))).take 10

/-- The whole pipeline from normalized-input silos to the indexed master
table: normalize, aggregate each silo, left-join twice, zero-fill, index. -/
def pipeline (enrol demo bio : Table) : List IndexedRow :=
  ((mergeAll (aggregate (normalizeTable enrol)) (aggregate (normalizeTable demo))
    (aggregate (normalizeTable bio))).map fillna).map addIndex

/-! ### General helper lemmas -/

/-- In a table with pairwise-distinct keys, filtering to a member row's key
returns exactly that row. -/
theorem filter_key_eq_singleton :
    ∀ (t : Table), (t.map Prod.fst).Nodup →
      ∀ r ∈ t, t.filter (fun x => x.1 == r.1) = [r] := by
  intro t
  induction t with
  | nil => intro _ r hr; cases hr
  | cons a t ih =>
    intro hnd r hr
    rw [List.map_cons, List.nodup_cons] at hnd
    rcases List.mem_cons.1 hr with rfl | hrt
    · have hnone : t.filter (fun x => x.1 == r.1) = [] := by
        apply List.filter_eq_nil_iff.mpr
        intro x hx
        simp only [beq_iff_eq]
        intro hx1
        exact hnd.1 (hx1 ▸ List.mem_map_of_mem Prod.fst hx)
      simp [List.filter_cons, hnone]
    · have hne : (a.1 == r.1) = false := by
        simp only [beq_eq_false_iff_ne, ne_eq]
        intro h1
        exact hnd.1 (h1 ▸ List.mem_map_of_mem Prod.fst hrt)
      simp only [List.filter_cons, hne]
      exact ih hnd.2 r hrt

/-- In a table with pairwise-distinct keys, the group sum at a member row's
key is that row's measures. -/
theorem groupSum_of_nodup {t : Table} (hnd : (t.map Prod.fst).Nodup)
    {r : Key × Measures} (hr : r ∈ t) : groupSum t r.1 = r.2 := by
  unfold groupSum
  rw [filter_key_eq_singleton t hnd r hr]
  simp

/-- In a table with pairwise-distinct keys, at most one row matches any key. -/
theorem length_filter_key_le_one :
    ∀ (t : Table), (t.map Prod.fst).Nodup →
      ∀ k : Key, (t.filter (fun x => x.1 == k)).length ≤ 1 := by
  intro t
  induction t with
  | nil => intro _ k; simp
  | cons a t ih =>
    intro hnd k
    rw [List.map_cons, List.nodup_cons] at hnd
    by_cases hak : a.1 = k
    · have hnone : t.filter (fun x => x.1 == k) = [] := by
        apply List.filter_eq_nil_iff.mpr
        intro x hx
        simp only [beq_iff_eq]
        intro hx1
        exact hnd.1 ((hx1.trans hak.symm) ▸ List.mem_map_of_mem Prod.fst hx)
      simp [List.filter_cons, hak, hnone]
    · have hne : (a.1 == k) = false := by simpa using hak
      simp only [List.filter_cons, hne]
      exact ih hnd.2 k

/-- A `flatMap` whose branches all have one element preserves the length. -/
theorem flatMap_length_one {α β : Type} :
    ∀ (l : List α) (f : α → List β), (∀ a ∈ l, (f a).length = 1) →
      (l.flatMap f).length = l.length := by
  intro l f
  induction l with
  | nil => intro _; rfl
  | cons a l ih =>
    intro h
    rw [List.flatMap_cons, List.length_append, ih (fun x hx => h x (List.mem_cons_of_mem a hx)),
      h a (List.mem_cons_self a l), List.length_cons]
    omega

/-- Every output row of the first left-join comes from an enrolment row; its
biometric columns are still missing, and its demographic columns are missing
unless some demographic row matches its key. -/
theorem mem_mergeDemo_cases {e d : Table} {m : MergedRow} (hm : m ∈ mergeDemo e d) :
    (∃ r ∈ e, m.key = r.1) ∧ m.bio_age_5_17 = none ∧ m.bio_age_17_ = none ∧
      ((m.demo_age_5_17 = none ∧ m.demo_age_17_ = none) ∨ ∃ s ∈ d, s.1 = m.key) := by
  unfold mergeDemo at hm
  rw [List.mem_flatMap] at hm
  obtain ⟨r, hr, hbr⟩ := hm
  simp only at hbr
  by_cases hempty : (d.filter (fun s => s.1 == r.1)).isEmpty
  · rw [if_pos hempty, List.mem_singleton] at hbr
    subst hbr
    exact ⟨⟨r, hr, rfl⟩, rfl, rfl, Or.inl ⟨rfl, rfl⟩⟩
  · rw [if_neg hempty, List.mem_map] at hbr
    obtain ⟨s, hs, hsm⟩ := hbr
    rw [List.mem_filter, beq_iff_eq] at hs
    subst hsm
    exact ⟨⟨r, hr, rfl⟩, rfl, rfl, Or.inr ⟨s, hs.1, hs.2⟩⟩

/-- Every output row of the second left-join extends a row of its left input:
the key, enrolment and demographic columns are carried over, and the
biometric columns are carried over unless some biometric row matches. -/
theorem mem_mergeBio_cases {l : List MergedRow} {b : Table} {m : MergedRow}
    (hm : m ∈ mergeBio l b) :
    ∃ m0 ∈ l, m.key = m0.key ∧ m.age_0_5 = m0.age_0_5 ∧ m.age_5_17 = m0.age_5_17 ∧
      m.demo_age_5_17 = m0.demo_age_5_17 ∧ m.demo_age_17_ = m0.demo_age_17_ ∧
      ((m.bio_age_5_17 = m0.bio_age_5_17 ∧ m.bio_age_17_ = m0.bio_age_17_) ∨
        ∃ s ∈ b, s.1 = m.key) := by
  unfold mergeBio at hm
  rw [List.mem_flatMap] at hm
  obtain ⟨m0, hm0, hbr⟩ := hm
  simp only at hbr
  by_cases hempty : (b.filter (fun s => s.1 == m0.key)).isEmpty
  · rw [if_pos hempty, List.mem_singleton] at hbr
    rw [hbr]
    exact ⟨m0, hm0, rfl, rfl, rfl, rfl, rfl, Or.inl ⟨rfl, rfl⟩⟩
  · rw [if_neg hempty, List.mem_map] at hbr
    obtain ⟨s, hs, hsm⟩ := hbr
    rw [List.mem_filter, beq_iff_eq] at hs
    rw [← hsm]
    exact ⟨m0, hm0, rfl, rfl, rfl, rfl, rfl, Or.inr ⟨s, hs.1, hs.2⟩⟩


/-! ### Claim theorems -/

/-- C2: For every merged row whose measure inputs are non-negative, the
Index Engine's `DVI = total_updates / (enrolment_pressure + total_updates + 1)`
satisfies `0 ≤ DVI < 1`, its denominator is nonzero (the formula is total,
defined even when both components are zero), and `DVI = 0` exactly when
`total_updates = 0`. -/
theorem dvi_bounded (r : FilledRow)
    (h1 : 0 ≤ r.age_0_5) (h2 : 0 ≤ r.age_5_17) (h3 : 0 ≤ r.demo_age_5_17)
    (h4 : 0 ≤ r.demo_age_17_) (h5 : 0 ≤ r.bio_age_5_17) (h6 : 0 ≤ r.bio_age_17_) :
    0 ≤ (addIndex r).DVI ∧ (addIndex r).DVI < 1 ∧
      (addIndex r).enrolment_pressure + (addIndex r).total_updates + 1 ≠ 0 ∧
      ((addIndex r).DVI = 0 ↔ (addIndex r).total_updates = 0) := by
  simp only [addIndex, dviFormula]
  have hp0 : 0 ≤ r.age_0_5 + r.age_5_17 := add_nonneg h1 h2
  have hu0 : 0 ≤ r.demo_age_5_17 + r.demo_age_17_ + r.bio_age_5_17 + r.bio_age_17_ :=
    add_nonneg (add_nonneg (add_nonneg h3 h4) h5) h6
  have hden : (0 : ℚ) < r.age_0_5 + r.age_5_17 +
      (r.demo_age_5_17 + r.demo_age_17_ + r.bio_age_5_17 + r.bio_age_17_) + 1 := by
    linarith
  refine ⟨div_nonneg hu0 hden.le, ?_, ne_of_gt hden, ?_⟩
  · rw [div_lt_one hden]
    linarith
  · rw [div_eq_zero_iff]
    constructor
    · rintro (h | h)
      · exact h
      · exact absurd h (ne_of_gt hden)
    · exact fun h => Or.inl h

/-- C2 witness: the bounds instantiated at a concrete filled row. -/
theorem dvi_bounded_witness :
    0 ≤ (addIndex ⟨⟨some 0, "KA", "Bengaluru", 1⟩, 1, 2, 3, 4, 5, 6⟩).DVI ∧
      (addIndex ⟨⟨some 0, "KA", "Bengaluru", 1⟩, 1, 2, 3, 4, 5, 6⟩).DVI < 1 ∧
      (addIndex ⟨⟨some 0, "KA", "Bengaluru", 1⟩, 1, 2, 3, 4, 5, 6⟩).enrolment_pressure +
        (addIndex ⟨⟨some 0, "KA", "Bengaluru", 1⟩, 1, 2, 3, 4, 5, 6⟩).total_updates + 1 ≠ 0 ∧
      ((addIndex ⟨⟨some 0, "KA", "Bengaluru", 1⟩, 1, 2, 3, 4, 5, 6⟩).DVI = 0 ↔
        (addIndex ⟨⟨some 0, "KA", "Bengaluru", 1⟩, 1, 2, 3, 4, 5, 6⟩).total_updates = 0) :=
  dvi_bounded _ (by norm_num) (by norm_num) (by norm_num) (by norm_num) (by norm_num)
    (by norm_num)

/-- C9: Normalization trims leading/trailing whitespace from the district
and then maps it through the alias table: both alias spellings become
"Bengaluru", and any other (trimmed) name passes through unchanged. -/
theorem clean_district_spec (s : String) :
    (strip s = "Bangalore Urban" ∨ strip s = "Bengaluru Urban" →
      clean_district s = "Bengaluru") ∧
    (strip s ≠ "Bangalore Urban" → strip s ≠ "Bengaluru Urban" →
      clean_district s = strip s) := by
  unfold clean_district
  constructor
  · rintro (h | h) <;> simp [h]
  · intro h1 h2
    simp [h1, h2]

/-- C9 witness: both alias spellings (one with surrounding whitespace) map to
"Bengaluru", and an unknown district passes through as its trimmed value. -/
theorem clean_district_spec_witness :
    clean_district (" Bangalore Urban ") = "Bengaluru" ∧
    clean_district ("Bengaluru Urban") = "Bengaluru" ∧
    clean_district ("Sitamarhi") = strip ("Sitamarhi") :=
  ⟨(clean_district_spec _).1 (Or.inl (by decide)),
   (clean_district_spec _).1 (Or.inr (by decide)),
   (clean_district_spec _).2 (by decide) (by decide)⟩

/-- C10: The `fillna(0)` step acts on every column of the merged table, the
enrolment-origin measure columns included: in each of the six measure
columns a missing value becomes 0 and a present value is kept. -/
theorem fillna_every_column (m : MergedRow) :
    ((m.age_0_5 = none → (fillna m).age_0_5 = 0) ∧
      (∀ v, m.age_0_5 = some v → (fillna m).age_0_5 = v)) ∧
    ((m.age_5_17 = none → (fillna m).age_5_17 = 0) ∧
      (∀ v, m.age_5_17 = some v → (fillna m).age_5_17 = v)) ∧
    ((m.demo_age_5_17 = none → (fillna m).demo_age_5_17 = 0) ∧
      (∀ v, m.demo_age_5_17 = some v → (fillna m).demo_age_5_17 = v)) ∧
    ((m.demo_age_17_ = none → (fillna m).demo_age_17_ = 0) ∧
      (∀ v, m.demo_age_17_ = some v → (fillna m).demo_age_17_ = v)) ∧
    ((m.bio_age_5_17 = none → (fillna m).bio_age_5_17 = 0) ∧
      (∀ v, m.bio_age_5_17 = some v → (fillna m).bio_age_5_17 = v)) ∧
    ((m.bio_age_17_ = none → (fillna m).bio_age_17_ = 0) ∧
      (∀ v, m.bio_age_17_ = some v → (fillna m).bio_age_17_ = v)) := by
  refine ⟨⟨?_, ?_⟩, ⟨?_, ?_⟩, ⟨?_, ?_⟩, ⟨?_, ?_⟩, ⟨?_, ?_⟩, ⟨?_, ?_⟩⟩ <;>
    first
      | (intro h; simp [fillna, h])
      | (intro v h; simp [fillna, h])

/-- Concrete merged row with missing values in alternating columns,
including the enrolment-origin column `age_0_5`. -/
def mixedMergedRow : MergedRow :=
  ⟨⟨some 0, "KA", "Bengaluru", 1⟩, none, some 2, none, some 4, none, some 6⟩

/-- C10 witness: on a concrete row, missing values (also in the
enrolment-origin column) become 0 and present values are kept. -/
theorem fillna_every_column_witness :
    (fillna mixedMergedRow).age_0_5 = 0 ∧ (fillna mixedMergedRow).age_5_17 = 2 ∧
    (fillna mixedMergedRow).demo_age_5_17 = 0 ∧ (fillna mixedMergedRow).demo_age_17_ = 4 ∧
    (fillna mixedMergedRow).bio_age_5_17 = 0 ∧ (fillna mixedMergedRow).bio_age_17_ = 6 :=
  ⟨(fillna_every_column mixedMergedRow).1.1 rfl,
   (fillna_every_column mixedMergedRow).2.1.2 2 rfl,
   (fillna_every_column mixedMergedRow).2.2.1.1 rfl,
   (fillna_every_column mixedMergedRow).2.2.2.1.2 4 rfl,
   (fillna_every_column mixedMergedRow).2.2.2.2.1.1 rfl,
   (fillna_every_column mixedMergedRow).2.2.2.2.2.2 6 rfl⟩

/-- Raw composite key of the scenario-B record, before district cleaning. -/
def scenKeyRaw : Key := ⟨some 202401, "KA", "Bengaluru Urban", 560001⟩

/-- Composite key of the scenario-B record after district cleaning. -/
def scenKey : Key := ⟨some 202401, "KA", "Bengaluru", 560001⟩

/-- Scenario-B enrolment silo: one record, `age_0_5 = 10`, `age_5_17 = 5`. -/
def scenEnrol : Table := [(scenKeyRaw, (10, 5))]

/-- Scenario-B demographic silo: one record, `demo_age_17_ = 90`. -/
def scenDemo : Table := [(scenKeyRaw, (0, 90))]

/-- Scenario-B biometric silo: one record, `bio_age_5_17 = 5`. -/
def scenBio : Table := [(scenKeyRaw, (5, 0))]

/-- C8: On scenario B's one-key input the Index Engine computes
`enrolment_pressure = 15`, `total_updates = 95` and `DVI = 95/111`, per the
formulas of step 5 of `main.py`; the full pipeline output is that single row. -/
theorem scenarioB_pipeline :
    pipeline scenEnrol scenDemo scenBio =
      [⟨scenKey, 10, 5, 0, 90, 5, 0, 15, 95, 95 / 111⟩] := by
  have hc : clean_district ("Bengaluru Urban") = "Bengaluru" := by decide
  simp [pipeline, normalizeTable, mergeAll, mergeDemo, mergeBio, aggregate, tableKeys,
    validRows, groupSum, fillna, addIndex, dviFormula, scenEnrol, scenDemo, scenBio,
    scenKeyRaw, scenKey, hc]
  norm_num

/-- Scenario-C key shared by the two raw enrolment records. -/
def scenCKey : Key := ⟨some 1, "KA", "Bengaluru", 560001⟩

/-- Scenario-C table: two records with the same key, `age_0_5 = 3` and `7`. -/
def scenCTable : Table := [(scenCKey, (3, 0)), (scenCKey, (7, 0))]

/-- C1 (amended): The aggregation step produces exactly one output row per
distinct composite key whose date is not the NaT sentinel (keys of the
output are exactly the distinct non-sentinel input keys, with no
duplicates), every measure of an output row is the componentwise sum over
the input rows sharing its key, and scenario C's two records with
`age_0_5 = 3` and `7` aggregate to a single row with `age_0_5 = 10`. -/
theorem aggregate_one_row_per_valid_key (t : Table) :
    ((aggregate t).map Prod.fst).Nodup ∧
    (∀ k : Key, k ∈ (aggregate t).map Prod.fst ↔ k ∈ (validRows t).map Prod.fst) ∧
    (∀ p ∈ aggregate t, p.2 = groupSum t p.1) ∧
    aggregate scenCTable = [(scenCKey, (10, 0))] := by
  refine ⟨?_, ?_, ?_, ?_⟩
  · have : (aggregate t).map Prod.fst = List.insertionSort keyLE (tableKeys t) := by
      simp [aggregate, List.map_map, Function.comp_def]
    rw [this]
    exact ((List.perm_insertionSort keyLE _).nodup_iff).mpr (List.nodup_dedup _)
  · intro k
    have : (aggregate t).map Prod.fst = List.insertionSort keyLE (tableKeys t) := by
      simp [aggregate, List.map_map, Function.comp_def]
    rw [this, List.mem_insertionSort]
    unfold tableKeys
    exact List.mem_dedup
  · intro p hp
    unfold aggregate at hp
    rw [List.mem_map] at hp
    obtain ⟨k, _, rfl⟩ := hp
    rfl
  · have hne : scenCKey ∈ [scenCKey] := List.mem_singleton_self _
    simp [aggregate, tableKeys, validRows, groupSum, scenCTable, scenCKey]
    norm_num

/-- C1 witness: the sum property applied at the scenario-C table and its
single aggregated row. -/
theorem aggregate_one_row_per_valid_key_witness :
    ((10 : ℚ), (0 : ℚ)) = groupSum scenCTable scenCKey :=
  (aggregate_one_row_per_valid_key scenCTable).2.2.1 (scenCKey, (10, 0))
    (by
      rw [(aggregate_one_row_per_valid_key scenCTable).2.2.2]
      exact List.mem_singleton_self _)

/-- Composite key whose date is the NaT sentinel (an unparseable date). -/
def sentCKey : Key := ⟨none, "BR", "Sitamarhi", 843301⟩

/-- One-record table carrying the sentinel key. -/
def sentCTable : Table := [(sentCKey, (3, 0))]

/-- C1 counterexample: a table with one distinct composite key (whose date
is the sentinel) aggregates to an empty output — not to one row per
distinct key, because `groupby` drops null keys. -/
theorem aggregate_sentinel_key_cex :
    sentCTable.map Prod.fst = [sentCKey] ∧ aggregate sentCTable = [] := by
  constructor
  · rfl
  · simp [aggregate, tableKeys, validRows, sentCTable, sentCKey]

/-- C4 (amended): Aggregation returns a key-unique table unchanged when the
table additionally has no sentinel dates and is already sorted by the
composite key; in general `groupby` re-sorts the rows by key. -/
theorem aggregate_idempotent (t : Table)
    (hvalid : ∀ r ∈ t, r.1.date.isSome = true)
    (hnodup : (t.map Prod.fst).Nodup)
    (hsorted : t.Pairwise (fun a b => keyLE a.1 b.1)) :
    aggregate t = t := by
  have hval : validRows t = t := List.filter_eq_self.mpr hvalid
  unfold aggregate tableKeys
  rw [hval, List.dedup_eq_self.mpr hnodup]
  have hsorted2 : List.Sorted keyLE (t.map Prod.fst) := by
    rw [List.Sorted, List.pairwise_map]
    exact hsorted
  rw [List.Sorted.insertionSort_eq hsorted2, List.map_map]
  have hid : ∀ r ∈ t, ((fun k => (k, groupSum t k)) ∘ Prod.fst) r = id r := by
    intro r hr
    simp only [Function.comp_apply, id_eq, groupSum_of_nodup hnodup hr]
  rw [List.map_congr_left hid, List.map_id]

/-- Key-unique, key-sorted, sentinel-free two-row table. -/
def sortedTable : Table :=
  [(⟨some 1, "KA", "Bengaluru", 560001⟩, (1, 2)), (⟨some 1, "KA", "Bengaluru", 560002⟩, (3, 4))]

/-- C4 witness: aggregation leaves the concrete sorted key-unique table
unchanged. -/
theorem aggregate_idempotent_witness : aggregate sortedTable = sortedTable :=
  aggregate_idempotent sortedTable (by decide) (by decide) (by decide)

/-- First key of the reordering counterexample (smaller pincode). -/
def cexKeyA : Key := ⟨some 1, "KA", "Bengaluru", 560001⟩

/-- Second key of the reordering counterexample (larger pincode). -/
def cexKeyB : Key := ⟨some 1, "KA", "Bengaluru", 560002⟩

/-- Key-unique table listed in descending key order. -/
def unsortedTable : Table := [(cexKeyB, (1, 1)), (cexKeyA, (2, 2))]

/-- C4 counterexample: a key-unique (sentinel-free) table that is not sorted
by key is not returned unchanged — `groupby` sorts the two rows. -/
theorem aggregate_reorders_cex :
    (∀ r ∈ unsortedTable, r.1.date.isSome = true) ∧
    (unsortedTable.map Prod.fst).Nodup ∧
    aggregate unsortedTable ≠ unsortedTable := by
  refine ⟨by decide, by decide, ?_⟩
  have hBA : ¬ keyLE cexKeyB cexKeyA := by decide
  have hne : ¬ (cexKeyB = cexKeyA) := by decide
  have hne2 : ¬ (cexKeyA = cexKeyB) := by decide
  have h1 : aggregate unsortedTable = [(cexKeyA, (2, 2)), (cexKeyB, (1, 1))] := by
    simp [aggregate, tableKeys, validRows, groupSum, unsortedTable, List.insertionSort,
      List.orderedInsert, hBA, hne, hne2]
  rw [h1]
  intro hcontra
  simp [unsortedTable, cexKeyA, cexKeyB] at hcontra

/-- C6 (amended): An unparseable date is coerced to the NaT sentinel rather
than raising (dates are total `Option` values in the model), but rows
carrying the sentinel do not participate in aggregation: every aggregated
row has a non-sentinel date, and aggregation coincides with aggregation of
the sentinel-free subtable — sentinel rows are silently dropped by
`groupby`. -/
theorem aggregate_excludes_sentinel (t : Table) :
    (∀ p ∈ aggregate t, p.1.date.isSome = true) ∧
    aggregate t = aggregate (validRows t) := by
  constructor
  · intro p hp
    unfold aggregate at hp
    rw [List.mem_map] at hp
    obtain ⟨k, hk, rfl⟩ := hp
    rw [List.mem_insertionSort] at hk
    unfold tableKeys at hk
    rw [List.mem_dedup, List.mem_map] at hk
    obtain ⟨r, hr, rfl⟩ := hk
    exact (List.mem_filter.1 hr).2
  · have hvv : validRows (validRows t) = validRows t := by
      apply List.filter_eq_self.mpr
      intro r hr
      exact (List.mem_filter.1 hr).2
    unfold aggregate
    have hkeys : tableKeys (validRows t) = tableKeys t := by
      unfold tableKeys
      rw [hvv]
    rw [hkeys]
    apply List.map_congr_left
    intro k hk
    have hks : k.date.isSome = true := by
      rw [List.mem_insertionSort] at hk
      unfold tableKeys at hk
      rw [List.mem_dedup, List.mem_map] at hk
      obtain ⟨r, hr, rfl⟩ := hk
      exact (List.mem_filter.1 hr).2
    have hfil : List.filter (fun r => r.1 == k) t =
        List.filter (fun r => r.1 == k) (validRows t) := by
      unfold validRows
      rw [List.filter_filter]
      apply List.filter_congr
      intro r _
      by_cases h : r.1 = k
      · simp [h, hks]
      · simp [h]
    rw [Prod.mk.injEq]
    refine ⟨rfl, ?_⟩
    unfold groupSum
    rw [hfil]

/-- One-record sentinel-free table for the C6 witness. -/
def validAggTable : Table := [(⟨some 5, "UP", "Agra", 282001⟩, (1, 0))]

/-- C6 witness: the aggregated row of a concrete table has a non-sentinel
date. -/
theorem aggregate_excludes_sentinel_witness :
    ((⟨some 5, "UP", "Agra", 282001⟩ : Key), ((1 : ℚ), (0 : ℚ))).1.date.isSome = true :=
  (aggregate_excludes_sentinel validAggTable).1 _
    (by
      have : aggregate validAggTable = [(⟨some 5, "UP", "Agra", 282001⟩, (1, 0))] := by
        simp [aggregate, tableKeys, validRows, groupSum, validAggTable]
      rw [this]
      exact List.mem_singleton_self _)

/-- One raw record whose date failed to parse (NaT sentinel key). -/
def sentPipeRow : Key × Measures := (⟨none, "BR", "Patna", 800001⟩, (5, 0))

/-- C6 counterexample: the record carrying the sentinel date does not
participate in aggregation — the aggregate of the one-record table is
empty, so the row was silently dropped rather than kept under a sentinel
key. -/
theorem sentinel_not_aggregated_cex :
    aggregate [sentPipeRow] = [] ∧ [sentPipeRow] ≠ ([] : Table) := by
  constructor
  · simp [aggregate, tableKeys, validRows, sentPipeRow]
  · simp

/-- C3: When the aggregate tables are key-unique on each side, the two
left-joins preserve cardinality exactly: the merged output has one row per
enrolment-aggregate row, for all inputs including empty demographic and
biometric tables. -/
theorem merge_preserves_enrol_count (e d b : Table)
    (he : (e.map Prod.fst).Nodup) (hd : (d.map Prod.fst).Nodup)
    (hb : (b.map Prod.fst).Nodup) :
    (mergeAll e d b).length = e.length := by
  have hbio : ∀ l : List MergedRow, (mergeBio l b).length = l.length := by
    intro l
    apply flatMap_length_one
    intro m _
    by_cases hempty : (b.filter (fun s => s.1 == m.key)).isEmpty = true
    · simp [hempty]
    · rw [Bool.not_eq_true] at hempty
      have hle : (b.filter (fun s => s.1 == m.key)).length ≤ 1 :=
        length_filter_key_le_one b hb m.key
      have hge : 1 ≤ (b.filter (fun s => s.1 == m.key)).length := by
        rcases Nat.eq_zero_or_pos (b.filter (fun s => s.1 == m.key)).length with h0 | h1
        · rw [List.length_eq_zero] at h0
          rw [h0] at hempty
          simp at hempty
        · exact h1
      simp only [hempty, Bool.false_eq_true, if_false, List.length_map]
      omega
  have hdemo : (mergeDemo e d).length = e.length := by
    apply flatMap_length_one
    intro r _
    by_cases hempty : (d.filter (fun s => s.1 == r.1)).isEmpty = true
    · simp [hempty]
    · rw [Bool.not_eq_true] at hempty
      have hle : (d.filter (fun s => s.1 == r.1)).length ≤ 1 :=
        length_filter_key_le_one d hd r.1
      have hge : 1 ≤ (d.filter (fun s => s.1 == r.1)).length := by
        rcases Nat.eq_zero_or_pos (d.filter (fun s => s.1 == r.1)).length with h0 | h1
        · rw [List.length_eq_zero] at h0
          rw [h0] at hempty
          simp at hempty
        · exact h1
      simp only [hempty, Bool.false_eq_true, if_false, List.length_map]
      omega
  unfold mergeAll
  rw [hbio, hdemo]

/-- One-row key-unique enrolment aggregate for the C3 witness. -/
def wEnrolAgg : Table := [(⟨some 7, "MH", "Mumbai", 400001⟩, (2, 3))]

/-- C3 witness: with empty demographic and biometric aggregates, the merged
output of the concrete one-row enrolment aggregate has exactly one row. -/
theorem merge_preserves_enrol_count_witness :
    (mergeAll wEnrolAgg [] []).length = wEnrolAgg.length :=
  merge_preserves_enrol_count wEnrolAgg [] [] (by decide) (by decide) (by decide)

/-- C7: A merged-and-indexed row whose key matches no demographic row and no
biometric row has all four update-origin measure columns equal to zero
(join-miss is zero-filled, not an error), hence `total_updates = 0` and
`DVI = 0`. -/
theorem join_miss_zero (e d b : Table) (r : IndexedRow)
    (hr : r ∈ ((mergeAll e d b).map fillna).map addIndex)
    (hd : ∀ s ∈ d, s.1 ≠ r.key) (hb : ∀ s ∈ b, s.1 ≠ r.key) :
    r.demo_age_5_17 = 0 ∧ r.demo_age_17_ = 0 ∧ r.bio_age_5_17 = 0 ∧ r.bio_age_17_ = 0 ∧
      r.total_updates = 0 ∧ r.DVI = 0 := by
  rw [List.mem_map] at hr
  obtain ⟨f, hf, rfl⟩ := hr
  rw [List.mem_map] at hf
  obtain ⟨m, hm, rfl⟩ := hf
  unfold mergeAll at hm
  obtain ⟨m0, hm0, hk0, _, _, hdd1, hdd2, hbio⟩ := mem_mergeBio_cases hm
  obtain ⟨_, hbn1, hbn2, hdemo⟩ := mem_mergeDemo_cases hm0
  have hmb : m.bio_age_5_17 = none ∧ m.bio_age_17_ = none := by
    rcases hbio with ⟨h1, h2⟩ | ⟨s, hs, hsk⟩
    · exact ⟨h1.trans hbn1, h2.trans hbn2⟩
    · exact absurd hsk (hb s hs)
  have hmd : m.demo_age_5_17 = none ∧ m.demo_age_17_ = none := by
    rcases hdemo with ⟨h1, h2⟩ | ⟨s, hs, hsk⟩
    · exact ⟨hdd1.trans h1, hdd2.trans h2⟩
    · refine absurd ?_ (hd s hs)
      show s.1 = m.key
      rw [hk0]
      exact hsk
  obtain ⟨hm1, hm2⟩ := hmd
  obtain ⟨hm3, hm4⟩ := hmb
  refine ⟨?_, ?_, ?_, ?_, ?_, ?_⟩ <;>
    simp [addIndex, fillna, hm1, hm2, hm3, hm4, dviFormula]

/-- Composite key of scenario A (already canonicalized to "Bengaluru"). -/
def scenAKey : Key := ⟨some 202401, "KA", "Bengaluru", 560001⟩

/-- Scenario-A enrolment aggregate: one row, `age_0_5 = 10`, `age_5_17 = 5`. -/
def scenAEnrolAgg : Table := [(scenAKey, (10, 5))]

/-- The merged-and-indexed row scenario A produces. -/
def scenARow : IndexedRow := addIndex (fillna ⟨scenAKey, some 10, some 5, none, none, none, none⟩)

/-- C7 witness (scenario A): one enrolment row and no matching update rows
yield a merged row with zero update measures, `total_updates = 0` and
`DVI = 0`. -/
theorem join_miss_zero_witness :
    scenARow.demo_age_5_17 = 0 ∧ scenARow.demo_age_17_ = 0 ∧ scenARow.bio_age_5_17 = 0 ∧
      scenARow.bio_age_17_ = 0 ∧ scenARow.total_updates = 0 ∧ scenARow.DVI = 0 :=
  join_miss_zero scenAEnrolAgg [] [] scenARow
    (by simp [mergeAll, mergeDemo, mergeBio, scenAEnrolAgg, scenARow])
    (by simp) (by simp)

/-- C5 (amended): Every entry of the identity-desert report is a district
with at least one row below the 0.1 threshold, mapped to the mean DVI of
its qualifying rows; the report has at most 10 entries and is sorted
ascending by mean DVI. The order among districts with equal means is not
first-seen insertion order (refuted by the counterexample); nor does the
program guarantee any particular tie order in general, since the value
sort's default kind is unstable — so only ascending-by-mean is asserted
universally. -/
theorem identity_deserts_spec (rows : List IndexedRow) :
    (∀ p ∈ identity_deserts rows, ∃ r ∈ rows, r.key.district = p.1 ∧ r.DVI < 1 / 10) ∧
    (∀ p ∈ identity_deserts rows, p.2 = districtMean (qualifying rows) p.1) ∧
    (identity_deserts rows).length ≤ 10 ∧
    (identity_deserts rows).Pairwise (fun p q => p.2 ≤ q.2) := by
  have hmem : ∀ p ∈ identity_deserts rows,
      ∃ d ∈ List.insertionSort strLE
          (((qualifying rows).map (fun r => r.key.district)).dedup),
        p = (d, districtMean (qualifying rows) d) := by
    intro p hp
    simp only [identity_deserts] at hp
    have hp2 := List.take_subset _ _ hp
    rw [List.mem_insertionSort, List.mem_map] at hp2
    obtain ⟨d, hd, rfl⟩ := hp2
    exact ⟨d, hd, rfl⟩
  refine ⟨?_, ?_, ?_, ?_⟩
  · intro p hp
    obtain ⟨d, hd, rfl⟩ := hmem p hp
    rw [List.mem_insertionSort, List.mem_dedup, List.mem_map] at hd
    obtain ⟨r, hr, rfl⟩ := hd
    unfold qualifying at hr
    rw [List.mem_filter] at hr
    exact ⟨r, hr.1, rfl, of_decide_eq_true hr.2⟩
  · intro p hp
    obtain ⟨d, hd, rfl⟩ := hmem p hp
    rfl
  · simp only [identity_deserts]
    exact List.length_take_le _ _
  · have hsorted : (List.insertionSort valueLE
        ((List.insertionSort strLE
          (((qualifying rows).map (fun r => r.key.district)).dedup)).map
            (fun d => (d, districtMean (qualifying rows) d)))).Pairwise
              (fun p q => p.2 ≤ q.2) :=
      List.sorted_insertionSort valueLE _
    simp only [identity_deserts]
    exact hsorted.sublist (List.take_sublist _ _)

/-- Desert-tie key with the alphabetically smaller district name. -/
def desertKeyA : Key := ⟨some 1, "KA", "aaa", 1⟩

/-- Desert-tie key with the alphabetically larger district name. -/
def desertKeyB : Key := ⟨some 1, "KA", "bbb", 2⟩

/-- An indexed row of a given key whose DVI is 1/20 (below the threshold). -/
def tieRow (k : Key) : IndexedRow := ⟨k, 0, 0, 0, 0, 0, 0, 0, 0, 1 / 20⟩

/-- Two qualifying rows whose districts tie on mean DVI; district "bbb" is
seen first. -/
def tieRows : List IndexedRow := [tieRow desertKeyB, tieRow desertKeyA]

/-- C5 counterexample: with equal means and first-seen order "bbb" before
"aaa", the report lists "aaa" first, not in first-seen (insertion) order as
claimed. (On a two-element series the model's order agrees with the
program's: grouping emits districts sorted by name, and numpy sorts arrays
this short by insertion sort, which keeps that order on the tie.) -/
theorem identity_deserts_tie_cex :
    tieRows.map (fun r => r.key.district) = ["bbb", "aaa"] ∧
    identity_deserts tieRows = [("aaa", 1 / 20), ("bbb", 1 / 20)] ∧
    identity_deserts tieRows ≠ [("bbb", 1 / 20), ("aaa", 1 / 20)] := by
  have hstr : ¬ strLE ("bbb") ("aaa") := by decide
  have hne1 : ¬ (("bbb" : String) = "aaa") := by decide
  have hne2 : ¬ (("aaa" : String) = "bbb") := by decide
  have h2 : identity_deserts tieRows = [("aaa", 1 / 20), ("bbb", 1 / 20)] := by
    norm_num [identity_deserts, qualifying, districtMean, tieRows, tieRow, desertKeyA,
      desertKeyB, List.insertionSort, List.orderedInsert, hstr, hne1, hne2, valueLE, beq_iff_eq, List.filter_cons, List.filter_nil]
  refine ⟨by rfl, h2, ?_⟩
  rw [h2]
  intro hcontra
  simp at hcontra

/-- C5 witness: the report membership property applied at the concrete rows,
for the entry of district "aaa". -/
theorem identity_deserts_spec_witness :
    ∃ r ∈ tieRows, r.key.district = ("aaa" : String) ∧ r.DVI < 1 / 10 :=
  (identity_deserts_spec tieRows).1 (("aaa", 1 / 20))
    (by
      have hstr : ¬ strLE ("bbb") ("aaa") := by decide
      have hne1 : ¬ (("bbb" : String) = "aaa") := by decide
      have hne2 : ¬ (("aaa" : String) = "bbb") := by decide
      norm_num [identity_deserts, qualifying, districtMean, tieRows, tieRow, desertKeyA,
        desertKeyB, List.insertionSort, List.orderedInsert, hstr, hne1, hne2, valueLE, beq_iff_eq, List.filter_cons, List.filter_nil])
